import Mathlib

/-!
Verification of the request/response pipeline of the `go-github` client
(`client.go`, `github.go`, `errors.go`).

Strings are modelled as `List Char` (Go strings of the relevant headers are
ASCII).  Machine integers are modelled as unbounded `Int`/`Nat`; none of the
verified properties depends on 64-bit overflow.  Time is modelled at the
granularity of epoch seconds (`Int`), which is the granularity of the
`X-RateLimit-Reset` header; `time.Now().Before(reset)` becomes `now < reset`.
-/

namespace GH

/-- Model: `prefixOf p s` is true when `p` is a prefix of `s`
(models Go `strings.HasPrefix s p`). -/
def prefixOf : List Char → List Char → Bool
  | [], _ => true
  | _ :: _, [] => false
  | p :: ps, c :: cs => p == c && prefixOf ps cs

/-- Model: `endsWith s p` is true when `p` is a suffix of `s`
(models Go `strings.HasSuffix s p`). -/
def endsWith (s p : List Char) : Bool :=
  prefixOf p.reverse s.reverse

/-- Decimal value of a digit string (accumulator form). -/
def digitsToNatAux : Nat → List Char → Nat
  | acc, [] => acc
  | acc, c :: cs => digitsToNatAux (acc * 10 + (c.toNat - 48)) cs

/-- Decimal value of a digit string; used for regex captures `(\d+)`,
which `strconv.Atoi` converts without error. -/
def digitsToNat (ds : List Char) : Nat := digitsToNatAux 0 ds

/-- Model: `some` of the decimal value when `s` is a nonempty all-digit string,
`none` otherwise. -/
def decDigits (s : List Char) : Option Nat :=
  if s ≠ [] ∧ s.all Char.isDigit then some (digitsToNat s) else none

/-- Models Go `strconv.Atoi` (and `strconv.ParseInt(s, 10, 64)`) with the
error discarded, as in `newResponse`: the parsed value on success, `0` on a
syntax error.  Bit-width range errors are not modelled (header values fit). -/
def atoi (s : List Char) : Int :=
  match s with
  | '-' :: rest => (match decDigits rest with | some n => -(n : Int) | none => 0)
  | '+' :: rest => (match decDigits rest with | some n => (n : Int) | none => 0)
  | _ => (match decDigits s with | some n => (n : Int) | none => 0)

/-! ### Link-header parsing (`github.go`, `relFirstRE` … `relLastRE`, `newResponse`)

The four regular expressions are
`<C+page=(\\d+)C*>; rel="REL"`, where `C` abbreviates the
character class of word characters and `. : ? & = / -`, for
`REL ∈ {first, prev, next, last}`.  They are modelled by a direct
implementation of RE2's leftmost-first matching semantics for this fixed
pattern shape:

* a match must begin at a `<`;
* `C+` / `C*` consume characters of the class
  `urlChar` below; since `>` is not in the class, the consumed region is
  exactly the maximal `urlChar` run following the `<`, and the literal
  `>; rel="REL"` must follow it;
* the greedy `+` before `page=` means the submatch `(\d+)` is the maximal
  digit run after the *last* occurrence of `page=` in the run that is
  preceded by at least one character and followed by at least one digit;
* `FindStringSubmatch` returns the match at the leftmost feasible `<`.
-/

/-- The character class `C` of the `Link` relation regexes
(`\w` in RE2 is `[0-9A-Za-z_]`). -/
def urlChar (c : Char) : Bool :=
  c.isAlphanum || c == '_' || c == '.' || c == ':' || c == '?' ||
    c == '&' || c == '=' || c == '/' || c == '-'

/-- If the string begins with `page=` followed by at least one digit,
the maximal digit run after that `page=`. -/
def pageAt : List Char → Option (List Char)
  | 'p' :: 'a' :: 'g' :: 'e' :: '=' :: rest =>
    (fun ds => if ds = [] then none else some ds) (rest.takeWhile Char.isDigit)
  | _ => none

/-- The capture of the *last* `page=`+digits occurrence in the scanned
string, accumulating left to right (greedy `C+`). -/
def lastPageAux : List Char → Option (List Char) → Option (List Char)
  | [], acc => acc
  | c :: cs, acc =>
    match pageAt (c :: cs) with
    | some ds => lastPageAux cs (some ds)
    | none => lastPageAux cs acc

/-- The `(\d+)` capture of `C+page=(\d+)C*` against an
entire `urlChar` run: the last `page=`+digits occurrence at position ≥ 1. -/
def entryCap (run : List Char) : Option (List Char) :=
  match run with
  | [] => none
  | _ :: tail => lastPageAux tail none

/-- The literal part `>; rel="REL"` that must follow the `urlChar` run. -/
def relTail (rel : List Char) : List Char :=
  '>' :: ';' :: ' ' :: 'r' :: 'e' :: 'l' :: '=' :: '"' :: (rel ++ ['"'])

/-- Attempt to match the relation pattern directly after a `<`:
take the maximal `urlChar` run, require `>; rel="REL"` after it, and
return the greedy capture. -/
def matchAfterLt (rel cs : List Char) : Option (List Char) :=
  if prefixOf (relTail rel) (cs.dropWhile urlChar) then entryCap (cs.takeWhile urlChar)
  else none

/-- Leftmost match of the relation pattern: scan for a `<` at which
`matchAfterLt` succeeds (models `FindStringSubmatch` returning `m[1]`). -/
def findRel (rel : List Char) : List Char → Option (List Char)
  | [] => none
  | c :: cs =>
    if c == '<' then
      match matchAfterLt rel cs with
      | some ds => some ds
      | none => findRel rel cs
    else findRel rel cs

/-- Pagination numbers of `newResponse` (`Pages`); `0` means absent. -/
structure Pages where
  first : Nat
  prev : Nat
  next : Nat
  last : Nat
deriving DecidableEq, Repr

def relFirstStr : List Char := ['f', 'i', 'r', 's', 't']
def relPrevStr : List Char := ['p', 'r', 'e', 'v']
def relNextStr : List Char := ['n', 'e', 'x', 't']
def relLastStr : List Char := ['l', 'a', 's', 't']

/-- The page number contributed by one relation: `strconv.Atoi m[1]` when the
regex matches, the zero value otherwise. -/
def pageNum (rel link : List Char) : Nat :=
  match findRel rel link with
  | some ds => digitsToNat ds
  | none => 0

/-- The `Pages` produced by `newResponse` from a `Link` header value
(`""` when the header is absent, in which case the block is skipped). -/
def pagesOfLink (link : List Char) : Pages :=
  if link = [] then ⟨0, 0, 0, 0⟩
  else ⟨pageNum relFirstStr link, pageNum relPrevStr link,
        pageNum relNextStr link, pageNum relLastStr link⟩

/-! ### Rate-limit state (`github.go`: `Rate`, `rateGroup`; `client.go`: `rates`) -/

/-- Model: `Rate` (`github.go`): the rate limit status parsed from response headers.
`reset` is an `Epoch` (Unix seconds). -/
structure Rate where
  limit : Int
  used : Int
  remaining : Int
  reset : Int
deriving DecidableEq, Repr

/-- Model: `rateGroup` (`github.go`). -/
inductive RateGroup where
  | core
  | search
  | graphql
deriving DecidableEq, Repr

/-- Model: `getRateGroup` (`github.go`): classification by URL path within the API
base path. -/
def getRateGroup (path : List Char) : RateGroup :=
  if prefixOf ['/', 's', 'e', 'a', 'r', 'c', 'h'] path then .search
  else if prefixOf ['/', 'g', 'r', 'a', 'p', 'h', 'q', 'l'] path then .graphql
  else .core

/-- The client's `rates map[rateGroup]Rate`: one optional entry per group
(the domain of the map has exactly these three keys). -/
structure Rates where
  core : Option Rate
  search : Option Rate
  graphql : Option Rate
deriving DecidableEq, Repr

/-- Map lookup `rate, ok := c.rates[g]`. -/
def Rates.get (m : Rates) : RateGroup → Option Rate
  | .core => m.core
  | .search => m.search
  | .graphql => m.graphql

/-- Map write `c.rates[g] = rate`. -/
def Rates.set (m : Rates) : RateGroup → Rate → Rates
  | .core, r => { m with core := some r }
  | .search, r => { m with search := some r }
  | .graphql, r => { m with graphql := some r }

/-! ### The transport response and the envelope (`github.go`: `newResponse`) -/

/-- The data of an `*http.Response` that `Do`/`newResponse` consult.  The
header fields hold `h.Get(...)` results (`[]`, i.e. `""`, when the header is
absent).  `bodyMessage`/`bodyDocURL` hold the result of the best-effort
`json.Unmarshal` of the error body into `ResponseError`'s `message` /
`documentation_url` fields (`[]` when the body is absent, unparseable, or
lacks the field), abstracting the stdlib JSON decoder. -/
structure HTTPResp where
  statusCode : Nat
  link : List Char
  rateLimitH : List Char
  rateUsedH : List Char
  rateRemainingH : List Char
  rateResetH : List Char
  retryAfterH : List Char
  bodyMessage : List Char
  bodyDocURL : List Char
deriving DecidableEq, Repr

/-- The `Rate` part of `newResponse`: each header parsed best-effort,
missing headers leaving the zero value. -/
def rateOfResp (r : HTTPResp) : Rate :=
  { limit := if r.rateLimitH = [] then 0 else atoi r.rateLimitH
    used := if r.rateUsedH = [] then 0 else atoi r.rateUsedH
    remaining := if r.rateRemainingH = [] then 0 else atoi r.rateRemainingH
    reset := if r.rateResetH = [] then 0 else atoi r.rateResetH }

/-- The `Response` envelope (`github.go`): the raw response plus derived
`Pages` and `Rate`. -/
structure Response where
  statusCode : Nat
  pages : Pages
  rate : Rate
deriving DecidableEq, Repr

/-- Model: `newResponse` (`github.go`). -/
def newResponse (r : HTTPResp) : Response :=
  { statusCode := r.statusCode, pages := pagesOfLink r.link, rate := rateOfResp r }

/-! ### Typed errors (`errors.go`) -/

/-- The request data that `Do` and the error messages consult: HTTP method
and URL path. -/
structure Request where
  method : List Char
  path : List Char
deriving DecidableEq, Repr

/-- Model: `ResponseError` (`errors.go`): the generic error.  `method`/`path`/
`statusCode` are the `Response.Request.Method`, `Response.Request.URL.Path`
and `Response.StatusCode` of the held `*http.Response`; `message` and
`documentationURL` are the JSON-decoded body fields. -/
structure ResponseError where
  method : List Char
  path : List Char
  statusCode : Nat
  message : List Char
  documentationURL : List Char
deriving DecidableEq, Repr

/-- Model: `ResponseError.Error()`: `fmt.Sprintf("%s %s: %d %s", ...)`. -/
def ResponseError.msg (e : ResponseError) : List Char :=
  e.method ++ ' ' :: e.path ++ ':' :: ' ' :: (Nat.toDigits 10 e.statusCode ++ ' ' :: e.message)

/-- Model: `AuthError` (`errors.go`). -/
structure AuthError where
  err : Option ResponseError
deriving DecidableEq, Repr

/-- Model: `AuthError.Error()`. -/
def AuthError.msg : AuthError → List Char
  | ⟨none⟩ => "requires authentication".data
  | ⟨some re⟩ => re.msg

/-- Model: `AuthError.Unwrap()` (a nil `*ResponseError` unwraps to nil). -/
def AuthError.unwrap (e : AuthError) : Option ResponseError := e.err

/-- Model: `NotFoundError` (`errors.go`). -/
structure NotFoundError where
  err : Option ResponseError
deriving DecidableEq, Repr

/-- Model: `NotFoundError.Error()`. -/
def NotFoundError.msg : NotFoundError → List Char
  | ⟨none⟩ => "resource not found".data
  | ⟨some re⟩ => re.msg

/-- Model: `NotFoundError.Unwrap()`. -/
def NotFoundError.unwrap (e : NotFoundError) : Option ResponseError := e.err

/-- Model: `RateLimitAbuseError` (`errors.go`).  `retryAfter` is in seconds. -/
structure RateLimitAbuseError where
  err : Option ResponseError
  rate : Rate
  retryAfter : Int
deriving DecidableEq, Repr

/-- Model: `RateLimitAbuseError.Error()`. -/
def RateLimitAbuseError.msg : RateLimitAbuseError → List Char
  | ⟨none, _, _⟩ => "rate limit is abused".data
  | ⟨some re, _, _⟩ => re.msg

/-- Model: `RateLimitAbuseError.Unwrap()`. -/
def RateLimitAbuseError.unwrap (e : RateLimitAbuseError) : Option ResponseError := e.err

/-- Model: `RateLimitError` (`errors.go`): carries the offending request and the
`Rate` that triggered it; `err` is nil on the pre-flight path. -/
structure RateLimitError where
  err : Option ResponseError
  request : Request
  rate : Rate
deriving DecidableEq, Repr

/-- Model: `RateLimitError.Unwrap()`. -/
def RateLimitError.unwrap (e : RateLimitError) : Option ResponseError := e.err

/-- Models `time.ParseDuration(h.Get("Retry-After") + "s")` with the error
discarded, for the integer-second values the header carries: the value in
seconds, `0` when parsing fails (e.g. the header is absent).  Fractional
durations are outside the model. -/
def parseRetryAfterSeconds (s : List Char) : Int :=
  match s with
  | '-' :: rest => (match decDigits rest with | some n => -(n : Int) | none => 0)
  | '+' :: rest => (match decDigits rest with | some n => (n : Int) | none => 0)
  | _ => (match decDigits s with | some n => (n : Int) | none => 0)

/-! ### The `Do` pipeline (`client.go`) -/

/-- The errors `Do` can return. -/
inductive DoError where
  | rateLimited (e : RateLimitError)
  | transportErr
  | responseErr (e : ResponseError)
  | authErr (e : AuthError)
  | abuseErr (e : RateLimitAbuseError)
  | notFoundErr (e : NotFoundError)
  | bodyErr
deriving DecidableEq, Repr

/-- The caller-supplied `body interface{}` argument of `Do`, together with
the outcome of the stdlib operation applied to the actual response body:
for an `io.Writer`, whether `io.Copy` succeeds; otherwise, whether
`json.NewDecoder(...).Decode` returns `nil` or `io.EOF` (both tolerated). -/
inductive BodySink where
  | noBody
  | writer (copyOk : Bool)
  | jsonSink (decodeOk : Bool)
deriving DecidableEq, Repr

/-- Model: `isSuccess` (`client.go`, inside `Do`): 200, 201, 204. -/
def isSuccess (statusCode : Nat) : Bool :=
  statusCode == 200 || statusCode == 201 || statusCode == 204

/-- Model: `strings.HasSuffix(respErr.DocumentationURL, "#abuse-rate-limits")`. -/
def abuseMarker : List Char := "#abuse-rate-limits".data

/-- The `READ THE BODY` step of `Do`, reached on success statuses (the body
has not been read yet on this path). -/
def readBody (resp : Response) (sink : BodySink) : Except DoError Response :=
  match sink with
  | .noBody => .ok resp
  | .writer copyOk => if copyOk then .ok resp else .error .bodyErr
  | .jsonSink decodeOk => if decodeOk then .ok resp else .error .bodyErr

/-- The `CHECK THE RESPONSE` / `READ THE BODY` steps of `Do` once a
transport response `r` is at hand and the envelope `resp` is built.  On a
non-success status the body is read whole (`ioutil.ReadAll`) and decoded
best-effort into `respErr`; the 403 case that matches neither rate-limit
condition falls out of the switch into `READ THE BODY`, where the
already-drained body makes both the raw copy and the JSON decode succeed
vacuously (the decoder reports `io.EOF`, which is tolerated), so the call
returns the envelope with no error. -/
def classify (req : Request) (r : HTTPResp) (resp : Response) (sink : BodySink) :
    Except DoError Response :=
  if isSuccess r.statusCode then readBody resp sink
  else
    let respErr : ResponseError :=
      ⟨req.method, req.path, r.statusCode, r.bodyMessage, r.bodyDocURL⟩
    if r.statusCode == 400 then .error (.responseErr respErr)
    else if r.statusCode == 401 then .error (.authErr ⟨some respErr⟩)
    else if r.statusCode == 403 then
      if r.rateRemainingH == ['0'] then
        .error (.rateLimited ⟨some respErr, req, resp.rate⟩)
      else if endsWith respErr.documentationURL abuseMarker then
        .error (.abuseErr ⟨some respErr, resp.rate, parseRetryAfterSeconds r.retryAfterH⟩)
      else
        .ok resp
    else if r.statusCode == 404 then .error (.notFoundErr ⟨some respErr⟩)
    else .error (.responseErr respErr)

/-- The result of one `Do` call: the rate map after the call, whether
`c.httpClient.Do` was invoked, and the returned `(*Response, error)` pair. -/
structure DoResult where
  rates : Rates
  httpCalled : Bool
  outcome : Except DoError Response
deriving Repr

/-- The `MAKE THE REQUEST` step onward: dispatch to the transport
(`tr = none` models a transport-level failure, surfaced verbatim), build the
envelope, unconditionally overwrite the rate entry for the group, then
classify. -/
def dispatch (rates : Rates) (req : Request) (tr : Option HTTPResp) (sink : BodySink)
    (g : RateGroup) : DoResult :=
  match tr with
  | none => ⟨rates, true, .error .transportErr⟩
  | some r =>
    let resp := newResponse r
    ⟨rates.set g resp.rate, true, classify req r resp sink⟩

/-- Model: `Do` (`client.go`): the full pipeline.  `rates` is the client's rate
map, `now` the current time in epoch seconds, `tr` the transport outcome
for this request.  The pre-flight check rejects with a `RateLimitError`
carrying the cached rate — and no HTTP call — when a cached entry has no
remaining quota and its reset time is still in the future. -/
def Do (rates : Rates) (now : Int) (req : Request) (tr : Option HTTPResp)
    (sink : BodySink) : DoResult :=
  let g := getRateGroup req.path
  match rates.get g with
  | some rate =>
    if rate.remaining == 0 && decide (now < rate.reset) then
      ⟨rates, false, .error (.rateLimited ⟨none, req, rate⟩)⟩
    else dispatch rates req tr sink g
  | none => dispatch rates req tr sink g

/-- The Go condition `ok && rate.Remaining == 0 && time.Now().Before(rate.Reset.Time())`. -/
def rateBlocked (cached : Option Rate) (now : Int) : Bool :=
  match cached with
  | some rate => rate.remaining == 0 && decide (now < rate.reset)
  | none => false

/-! ### Request builders (`client.go`: `NewRequest`, `NewPageRequest`,
`NewUploadRequest`, `NewDownloadRequest`)

The stdlib pieces are modelled as follows.  `base.Parse(url)` either
succeeds or fails; which one is an input (`urlOk`), since URL grammar is
outside the model.  `http.NewRequestWithContext` fails with a nil-context
error when `ctx == nil` (its first check after URL validation); `ctxIsNil`
is an input.  The JSON encoding of a non-`io.Reader` body either succeeds
with some bytes or fails; the `ReqBody` constructors carry that outcome.
`http.DetectContentType` is an opaque parameter `detect`; per its stdlib
contract it returns `application/octet-stream` when no more specific type
fits.  Files are byte lists; `os.Open` fails when the file is absent. -/

/-- Failures of request construction (all local, pre-flight). -/
inductive ReqError where
  | urlErr
  | encodeErr
  | openErr
  | readErr
  | nilCtx
deriving DecidableEq, Repr

/-- The `body interface{}` argument of `NewRequest`: absent, an
`io.Reader` (sent verbatim), or a JSON-encodable value together with the
outcome of encoding it. -/
inductive ReqBody where
  | raw (bs : List Nat)
  | jsonOk (enc : List Nat)
  | jsonBad
deriving DecidableEq, Repr

def userAgent : List Char := "moorara/github".data
def mediaJSON : List Char := "application/json".data
def mediaTypeV3 : List Char := "application/vnd.github.v3+json".data

/-- An outgoing request as the builders construct it. -/
structure HTTPRequest where
  method : List Char
  path : List Char
  query : List (List Char × List Char)
  userAgentH : List Char
  acceptH : Option (List Char)
  contentTypeH : Option (List Char)
  authH : Option (List Char)
  body : Option (List Nat)
deriving DecidableEq, Repr

/-- Model: `NewRequest` (`client.go`): parse the URL against the API base, resolve
the body (raw reader or JSON encoding), create the request (nil-context
check), then set User-Agent, Accept, Authorization (only with a token) and
Content-Type (only with a body). -/
def NewRequest (token : List Char) (ctxIsNil urlOk : Bool) (method path : List Char)
    (body : Option ReqBody) : Except ReqError HTTPRequest :=
  if urlOk = false then .error .urlErr
  else
    match (match body with
           | none => Except.ok (none : Option (List Nat))
           | some (.raw bs) => .ok (some bs)
           | some (.jsonOk enc) => .ok (some enc)
           | some .jsonBad => .error ReqError.encodeErr) with
    | .error e => .error e
    | .ok reader =>
      if ctxIsNil then .error .nilCtx
      else
        .ok { method := method, path := path, query := []
              userAgentH := userAgent
              acceptH := some mediaTypeV3
              contentTypeH := if body.isSome then some mediaJSON else none
              authH := if token = [] then none else some ("token ".data ++ token)
              body := reader }

/-- Model: `NewPageRequest` (`client.go`): `NewRequest` plus `per_page`/`page`
query parameters, added only when positive. -/
def NewPageRequest (token : List Char) (ctxIsNil urlOk : Bool) (method path : List Char)
    (pageSize pageNo : Int) (body : Option ReqBody) : Except ReqError HTTPRequest :=
  match NewRequest token ctxIsNil urlOk method path body with
  | .error e => .error e
  | .ok req =>
    .ok { req with query :=
            (if 0 < pageSize then [("per_page".data, Nat.toDigits 10 pageSize.toNat)] else []) ++
            (if 0 < pageNo then [("page".data, Nat.toDigits 10 pageNo.toNat)] else []) }

/-- Model: `NewDownloadRequest` (`client.go`): GET against the download base, with
only User-Agent and Authorization set. -/
def NewDownloadRequest (token : List Char) (ctxIsNil urlOk : Bool) (path : List Char) :
    Except ReqError HTTPRequest :=
  if urlOk = false then .error .urlErr
  else if ctxIsNil then .error .nilCtx
  else
    .ok { method := ['G', 'E', 'T'], path := path, query := []
          userAgentH := userAgent
          acceptH := none
          contentTypeH := none
          authH := if token = [] then none else some ("token ".data ++ token)
          body := none }

/-- An open `*os.File`: its contents and the current read offset.  The file
handle is both the streaming request body and the returned `io.Closer`. -/
structure FileHandle where
  contents : List Nat
  offset : Nat
deriving DecidableEq, Repr

/-- The upload request returned by `NewUploadRequest`; the body streams
from the file handle's offset. -/
structure UploadRequest where
  method : List Char
  path : List Char
  contentLength : Int
  userAgentH : List Char
  acceptH : List Char
  contentTypeH : List Char
  authH : Option (List Char)
  body : FileHandle
deriving DecidableEq, Repr

/-- The 512-byte sniff buffer: `buff := make([]byte, 512)` filled by a
single `f.Read(buff)` from offset 0 — the first `min 512 size` bytes of the
file, zero-padded to 512. -/
def pad512 (bs : List Nat) : List Nat :=
  bs.take 512 ++ List.replicate (512 - min bs.length 512) 0

/-- Model: `NewUploadRequest` (`client.go`): parse against the upload base, open
the file, `Stat` it, read the first 512 bytes for content-type sniffing
(on an empty file this `Read` returns `(0, io.EOF)` and the call fails),
seek back to the start, create the POST request (nil-context check), set
headers, and return the request together with the file as the closer.
`detect` stands for `http.DetectContentType`. -/
def NewUploadRequest (detect : List Nat → List Char) (token : List Char)
    (ctxIsNil urlOk : Bool) (path : List Char) (file : Option (List Nat)) :
    Except ReqError (UploadRequest × FileHandle) :=
  if urlOk = false then .error .urlErr
  else
    match file with
    | none => .error .openErr
    | some bs =>
      if bs.length = 0 then .error .readErr
      else
        let mediaType := detect (pad512 bs)
        let f : FileHandle := ⟨bs, 0⟩
        if ctxIsNil then .error .nilCtx
        else
          .ok (⟨['P', 'O', 'S', 'T'], path, (bs.length : Int),
                userAgent, mediaTypeV3, mediaType,
                (if token = [] then none else some ("token ".data ++ token)), f⟩, f)

/-! ### Link headers as entry lists

A well-formed `Link` header value is a `", "`-separated list of
`<url>; rel="x"` entries.  Rendering an entry list to the header string lets
the order-independence of `newResponse`'s parsing be stated: parsing the
rendering of any permutation of the entries gives the same `Pages`. -/

/-- One `<url>; rel="x"` entry of a `Link` header. -/
structure LinkEntry where
  url : List Char
  rel : List Char
deriving DecidableEq, Repr

/-- The rendered form of one entry. -/
def renderEntry (e : LinkEntry) : List Char :=
  '<' :: (e.url ++ relTail e.rel)

/-- The rendered form of the entries after the first, each preceded by the
`", "` separator. -/
def renderRest : List LinkEntry → List Char
  | [] => []
  | e :: es => ',' :: ' ' :: (renderEntry e ++ renderRest es)

/-- The rendered header value: entries joined by `", "`. -/
def renderLink : List LinkEntry → List Char
  | [] => []
  | e :: es => renderEntry e ++ renderRest es

/-- The four relation names the parser looks for. -/
def relNames : List (List Char) := [relFirstStr, relPrevStr, relNextStr, relLastStr]

/-- The page number the regex family extracts from a single entry's URL:
the digits after the last qualifying `page=` occurrence, `0` when there is
none. -/
def entryPage (url : List Char) : Nat :=
  match entryCap url with
  | some ds => digitsToNat ds
  | none => 0

/-- The page number for one relation over an entry list: that of the entry
carrying the relation, `0` when the relation is absent. -/
def relPage (rel : List Char) (es : List LinkEntry) : Nat :=
  match es.find? (fun e => e.rel == rel) with
  | some e => entryPage e.url
  | none => 0

/-- The `Pages` an entry list denotes, relation by relation. -/
def expectedPages (es : List LinkEntry) : Pages :=
  ⟨relPage relFirstStr es, relPage relPrevStr es, relPage relNextStr es, relPage relLastStr es⟩

/-- The `page` query parameter of a URL, as the spec describes the
extraction: the value of the first `&`-separated segment of the query part
whose key is `page`.  (Second definition, following the spec's words, for
comparison with the regex-derived extraction above.) -/
def splitAmp : List Char → List (List Char)
  | [] => [[]]
  | '&' :: cs => [] :: splitAmp cs
  | c :: cs =>
    match splitAmp cs with
    | [] => [[c]]
    | s :: ss => (c :: s) :: ss

/-- The query part of a URL: everything after the first `?`. -/
def afterQmark : List Char → List Char
  | [] => []
  | '?' :: cs => cs
  | _ :: cs => afterQmark cs

/-- See `splitAmp`: the spec-worded `page` query parameter of a URL. -/
def pageQueryParam (url : List Char) : Option Nat :=
  match (splitAmp (afterQmark url)).find?
      (fun seg => prefixOf ['p', 'a', 'g', 'e', '='] seg) with
  | some seg => decDigits (seg.drop 5)
  | none => none

/-! ### Lemmas: scanning a rendered header -/

theorem takeWhile_run {α : Type} (p : α → Bool) (xs : List α) (y : α) (ys : List α)
    (hx : ∀ c ∈ xs, p c = true) (hy : p y = false) :
    (xs ++ y :: ys).takeWhile p = xs := by
  induction xs with
  | nil => simp [List.takeWhile, hy]
  | cons a as ih =>
    have ha : p a = true := hx a (by simp)
    simp only [List.cons_append, List.takeWhile_cons, ha]
    simp [ih (fun c hc => hx c (by simp [hc]))]

theorem dropWhile_run {α : Type} (p : α → Bool) (xs : List α) (y : α) (ys : List α)
    (hx : ∀ c ∈ xs, p c = true) (hy : p y = false) :
    (xs ++ y :: ys).dropWhile p = y :: ys := by
  induction xs with
  | nil => simp [List.dropWhile, hy]
  | cons a as ih =>
    have ha : p a = true := hx a (by simp)
    simp only [List.cons_append, List.dropWhile_cons, ha]
    exact ih (fun c hc => hx c (by simp [hc]))

theorem findRel_skip (rel : List Char) (xs ys : List Char) (h : ∀ c ∈ xs, c ≠ '<') :
    findRel rel (xs ++ ys) = findRel rel ys := by
  induction xs with
  | nil => rfl
  | cons a as ih =>
    have ha : (a == '<') = false := by
      simpa using h a (by simp)
    simp only [List.cons_append, findRel, ha]
    exact ih (fun c hc => h c (by simp [hc]))

theorem urlChar_ne_lt (c : Char) (h : urlChar c = true) : c ≠ '<' := by
  intro heq
  subst heq
  exact absurd h (by decide)

theorem relTail_no_lt (erel : List Char) (he : erel ∈ relNames) :
    ∀ c ∈ relTail erel, c ≠ '<' := by
  simp only [relNames, List.mem_cons, List.not_mem_nil, or_false] at he
  rcases he with rfl | rfl | rfl | rfl <;> decide

theorem prefixOf_relTail (rel erel : List Char) (rest : List Char)
    (hr : rel ∈ relNames) (he : erel ∈ relNames) :
    prefixOf (relTail rel) (relTail erel ++ rest) = (rel == erel) := by
  simp only [relNames, List.mem_cons, List.not_mem_nil, or_false] at hr he
  rcases hr with rfl | rfl | rfl | rfl <;> rcases he with rfl | rfl | rfl | rfl <;>
    simp +decide [relTail, relFirstStr, relPrevStr, relNextStr, relLastStr, prefixOf]

theorem findRel_cons_lt (rel cs : List Char) :
    findRel rel ('<' :: cs) =
      match matchAfterLt rel cs with
      | some ds => some ds
      | none => findRel rel cs := by
  simp [findRel]

theorem findRel_entry (rel : List Char) (e : LinkEntry) (rest : List Char)
    (hu : ∀ c ∈ e.url, urlChar c = true)
    (he : e.rel ∈ relNames) (hr : rel ∈ relNames) :
    findRel rel (renderEntry e ++ rest) =
      if e.rel = rel then
        (match entryCap e.url with
         | some ds => some ds
         | none => findRel rel rest)
      else findRel rel rest := by
  have hgt : urlChar '>' = false := by decide
  have hskip : ∀ c ∈ e.url ++ relTail e.rel, c ≠ '<' := by
    intro c hc
    rcases List.mem_append.mp hc with h | h
    · exact urlChar_ne_lt c (hu c h)
    · exact relTail_no_lt e.rel he c h
  have hbody : (e.url ++ relTail e.rel) ++ rest
      = e.url ++ '>' ::
          ((';' :: ' ' :: 'r' :: 'e' :: 'l' :: '=' :: '"' :: (e.rel ++ ['"'])) ++ rest) := by
    simp [relTail]
  have htake : ((e.url ++ relTail e.rel) ++ rest).takeWhile urlChar = e.url := by
    rw [hbody]
    exact takeWhile_run urlChar e.url '>' _ hu hgt
  have hdrop : ((e.url ++ relTail e.rel) ++ rest).dropWhile urlChar = relTail e.rel ++ rest := by
    rw [hbody, dropWhile_run urlChar e.url '>' _ hu hgt]
    simp [relTail]
  have hma : matchAfterLt rel ((e.url ++ relTail e.rel) ++ rest)
      = if (rel == e.rel) then entryCap e.url else none := by
    rw [matchAfterLt, htake, hdrop, prefixOf_relTail rel e.rel rest hr he]
  have hstart : renderEntry e ++ rest = '<' :: ((e.url ++ relTail e.rel) ++ rest) := by
    simp [renderEntry]
  rw [hstart, findRel_cons_lt, hma]
  by_cases hrel : rel = e.rel
  · rw [if_pos (show (rel == e.rel) = true by simp [hrel]), if_pos hrel.symm]
    cases hcap : entryCap e.url with
    | some ds => rfl
    | none => exact findRel_skip rel _ rest hskip
  · rw [if_neg (show ¬(rel == e.rel) = true by simp [hrel]),
      if_neg (fun h => hrel h.symm)]
    exact findRel_skip rel _ rest hskip

theorem findRel_renderRest (rel : List Char) (es : List LinkEntry) :
    findRel rel (renderRest es) = findRel rel (renderLink es) := by
  cases es with
  | nil => rfl
  | cons e es' => simp +decide [findRel, renderRest, renderLink]

theorem findRel_render (rel : List Char) (es : List LinkEntry)
    (hwf : ∀ e ∈ es, (∀ c ∈ e.url, urlChar c = true) ∧ e.rel ∈ relNames)
    (hr : rel ∈ relNames) (hnd : (es.map LinkEntry.rel).Nodup) :
    findRel rel (renderLink es)
      = (es.find? (fun e => e.rel == rel)).bind (fun e => entryCap e.url) := by
  induction es with
  | nil => rfl
  | cons e es ih =>
    have hwe := hwf e (by simp)
    have hrl : renderLink (e :: es) = renderEntry e ++ renderRest es := rfl
    rw [hrl, findRel_entry rel e (renderRest es) hwe.1 hwe.2 hr, findRel_renderRest]
    have hwf' : ∀ e' ∈ es, (∀ c ∈ e'.url, urlChar c = true) ∧ e'.rel ∈ relNames :=
      fun e' h' => hwf e' (by simp [h'])
    have hnd' : (es.map LinkEntry.rel).Nodup := (List.nodup_cons.mp hnd).2
    by_cases hrel : e.rel = rel
    · have hfind : (e :: es).find? (fun e' => e'.rel == rel) = some e :=
        List.find?_cons_of_pos (p := fun e' : LinkEntry => e'.rel == rel) es (by simp [hrel])
      rw [hfind]
      have hnone : es.find? (fun e' => e'.rel == rel) = none := by
        rw [List.find?_eq_none]
        intro x hx hbx
        have hxe : x.rel = rel := by simpa using hbx
        exact (List.nodup_cons.mp hnd).1 (by
          rw [← hrel] at hxe
          exact hxe ▸ List.mem_map_of_mem LinkEntry.rel hx)
      rw [if_pos hrel, ih hwf' hnd', hnone]
      cases hcap : entryCap e.url <;> simp [hcap]
    · have hfind : (e :: es).find? (fun e' => e'.rel == rel)
          = es.find? (fun e' => e'.rel == rel) :=
        List.find?_cons_of_neg (p := fun e' : LinkEntry => e'.rel == rel) es (by simpa using hrel)
      rw [hfind, if_neg hrel]
      exact ih hwf' hnd'

theorem pageNum_render (rel : List Char) (es : List LinkEntry)
    (hwf : ∀ e ∈ es, (∀ c ∈ e.url, urlChar c = true) ∧ e.rel ∈ relNames)
    (hr : rel ∈ relNames) (hnd : (es.map LinkEntry.rel).Nodup) :
    pageNum rel (renderLink es) = relPage rel es := by
  rw [pageNum, findRel_render rel es hwf hr hnd, relPage]
  cases hf : es.find? (fun e => e.rel == rel) with
  | none => rfl
  | some e => cases hcap : entryCap e.url <;> simp [entryPage, hcap]

theorem pages_render (es : List LinkEntry)
    (hwf : ∀ e ∈ es, (∀ c ∈ e.url, urlChar c = true) ∧ e.rel ∈ relNames)
    (hnd : (es.map LinkEntry.rel).Nodup) :
    pagesOfLink (renderLink es) = expectedPages es := by
  cases hes : es with
  | nil => rfl
  | cons e es' =>
    have hne : renderLink (e :: es') ≠ [] := by simp [renderLink, renderEntry]
    rw [← hes] at hne ⊢
    rw [pagesOfLink, if_neg (by rw [hes]; exact hne ∘ (hes ▸ id))]
    · rw [expectedPages,
        pageNum_render relFirstStr es hwf (by decide) hnd,
        pageNum_render relPrevStr es hwf (by decide) hnd,
        pageNum_render relNextStr es hwf (by decide) hnd,
        pageNum_render relLastStr es hwf (by decide) hnd]

theorem find?_eq_head?_filter {α : Type} (p : α → Bool) (l : List α) :
    l.find? p = (l.filter p).head? := by
  induction l with
  | nil => rfl
  | cons a l ih =>
    cases hpa : p a with
    | true => rw [List.find?_cons_of_pos l hpa, List.filter_cons_of_pos hpa]; rfl
    | false =>
      rw [List.find?_cons_of_neg l (by simp [hpa]), List.filter_cons_of_neg (by simp [hpa])]
      exact ih

theorem find?_key_perm (rel : List Char) (es₁ es₂ : List LinkEntry) (hp : es₁.Perm es₂)
    (hnd : (es₁.map LinkEntry.rel).Nodup) :
    es₁.find? (fun e => e.rel == rel) = es₂.find? (fun e => e.rel == rel) := by
  rw [find?_eq_head?_filter, find?_eq_head?_filter]
  have hpf := hp.filter (fun e : LinkEntry => e.rel == rel)
  cases hf : es₁.filter (fun e => e.rel == rel) with
  | nil =>
    rw [hf] at hpf
    rw [(hpf.symm).eq_nil]
  | cons a t =>
    cases t with
    | nil =>
      rw [hf] at hpf
      rw [List.perm_singleton.mp hpf.symm]
    | cons b t' =>
      exfalso
      have hsub : ((es₁.filter (fun e => e.rel == rel)).map LinkEntry.rel).Sublist
          (es₁.map LinkEntry.rel) := (es₁.filter_sublist).map LinkEntry.rel
      have hndf := hnd.sublist hsub
      rw [hf] at hndf
      have ha : a ∈ es₁.filter (fun e => e.rel == rel) := by rw [hf]; simp
      have hb : b ∈ es₁.filter (fun e => e.rel == rel) := by rw [hf]; simp
      have ha' : a.rel = rel := by simpa using (List.mem_filter.mp ha).2
      have hb' : b.rel = rel := by simpa using (List.mem_filter.mp hb).2
      simp only [List.map_cons, List.nodup_cons, List.mem_cons] at hndf
      exact hndf.1 (Or.inl (ha'.trans hb'.symm))

theorem relPage_perm (rel : List Char) (es₁ es₂ : List LinkEntry) (hp : es₁.Perm es₂)
    (hnd : (es₁.map LinkEntry.rel).Nodup) :
    relPage rel es₁ = relPage rel es₂ := by
  rw [relPage, relPage, find?_key_perm rel es₁ es₂ hp hnd]

/-! ### Lemmas: unfolding `Do` -/

theorem Do_blocked (rates : Rates) (now : Int) (req : Request) (tr : Option HTTPResp)
    (sink : BodySink) (rate : Rate) (hc : rates.get (getRateGroup req.path) = some rate)
    (h0 : rate.remaining = 0) (hr : now < rate.reset) :
    Do rates now req tr sink = ⟨rates, false, .error (.rateLimited ⟨none, req, rate⟩)⟩ := by
  simp only [Do]
  rw [hc]
  simp [h0, hr]

theorem Do_not_blocked (rates : Rates) (now : Int) (req : Request) (tr : Option HTTPResp)
    (sink : BodySink)
    (h : rateBlocked (rates.get (getRateGroup req.path)) now = false) :
    Do rates now req tr sink = dispatch rates req tr sink (getRateGroup req.path) := by
  simp only [Do]
  cases hc : rates.get (getRateGroup req.path) with
  | none => rfl
  | some rate =>
    rw [hc] at h
    simp only [rateBlocked] at h
    simp [h]

theorem Do_blocked_of_rateBlocked (rates : Rates) (now : Int) (req : Request)
    (tr : Option HTTPResp) (sink : BodySink)
    (h : rateBlocked (rates.get (getRateGroup req.path)) now = true) :
    ∃ rate, rates.get (getRateGroup req.path) = some rate ∧
      Do rates now req tr sink = ⟨rates, false, .error (.rateLimited ⟨none, req, rate⟩)⟩ := by
  cases hc : rates.get (getRateGroup req.path) with
  | none => rw [hc] at h; exact absurd h (by simp [rateBlocked])
  | some rate =>
    rw [hc] at h
    simp only [rateBlocked, Bool.and_eq_true, beq_iff_eq, decide_eq_true_eq] at h
    exact ⟨rate, rfl, Do_blocked rates now req tr sink rate hc h.1 h.2⟩

/-- Model: `sinkOk` holds when the body-reading step for the sink succeeds. -/
def sinkOk : BodySink → Bool
  | .noBody => true
  | .writer copyOk => copyOk
  | .jsonSink decodeOk => decodeOk

/-! ### Concrete fixtures (used by witnesses) -/

def rate0 : Rate := ⟨5000, 5000, 0, 100⟩
def ratesCoreBlocked : Rates := ⟨some rate0, none, none⟩
def ratesNone : Rates := ⟨none, none, none⟩
def reqGetUser : Request := ⟨['G', 'E', 'T'], ['/', 'u', 's', 'e', 'r']⟩

/-- A response fixture with the given status, remaining-header and
documentation URL. -/
def sampleResp (status : Nat) (remaining docURL : List Char) : HTTPResp :=
  ⟨status, [], ['5', '0', '0', '0'], ['9', '9'], remaining, ['2', '0', '0'], [],
    ['o', 'o', 'p', 's'], docURL⟩

/-! ### Claims -/

/-- Claim C1: for every request whose rate group has a cached tracker entry
with zero remaining quota and a reset time after the current time, `Do`
returns a `RateLimitError` carrying that cached rate and the request,
without making any HTTP call; for every other cached state (no entry,
positive remaining, or reset time passed) the request is dispatched to the
transport. -/
theorem C1_preflight_rate_gate :
    (∀ (rates : Rates) (now : Int) (req : Request) (tr : Option HTTPResp) (sink : BodySink)
        (rate : Rate), rates.get (getRateGroup req.path) = some rate →
        rate.remaining = 0 → now < rate.reset →
        Do rates now req tr sink
          = ⟨rates, false, .error (.rateLimited ⟨none, req, rate⟩)⟩) ∧
    (∀ (rates : Rates) (now : Int) (req : Request) (tr : Option HTTPResp) (sink : BodySink),
        (rates.get (getRateGroup req.path) = none ∨
          (∃ rate, rates.get (getRateGroup req.path) = some rate ∧
            (0 < rate.remaining ∨ rate.reset ≤ now))) →
        (Do rates now req tr sink).httpCalled = true) := by
  constructor
  · intro rates now req tr sink rate hc h0 hr
    exact Do_blocked rates now req tr sink rate hc h0 hr
  · intro rates now req tr sink hcase
    have hnb : rateBlocked (rates.get (getRateGroup req.path)) now = false := by
      rcases hcase with hnone | ⟨rate, hc, hcond⟩
      · rw [hnone]; rfl
      · rw [hc]
        rcases hcond with hpos | hpast
        · have h1 : (rate.remaining == 0) = false := beq_eq_false_iff_ne.mpr (by omega)
          simp [rateBlocked, h1]
        · have h2 : decide (now < rate.reset) = false := decide_eq_false (by omega)
          simp [rateBlocked, h2]
    rw [Do_not_blocked rates now req tr sink hnb]
    cases tr <;> rfl

/-- Witness for C1 at concrete inputs: a blocked cached core entry rejects
without an HTTP call, and an empty cache dispatches. -/
theorem C1_witness :
    (ratesCoreBlocked.get (getRateGroup reqGetUser.path) = some rate0 ∧
      rate0.remaining = 0 ∧ (50 : Int) < rate0.reset ∧
      Do ratesCoreBlocked 50 reqGetUser none .noBody
        = ⟨ratesCoreBlocked, false, .error (.rateLimited ⟨none, reqGetUser, rate0⟩)⟩) ∧
    (Do ratesNone 50 reqGetUser none .noBody).httpCalled = true := by
  refine ⟨⟨rfl, rfl, by decide, ?_⟩, ?_⟩
  · exact C1_preflight_rate_gate.1 ratesCoreBlocked 50 reqGetUser none .noBody rate0 rfl rfl
      (by decide)
  · exact C1_preflight_rate_gate.2 ratesNone 50 reqGetUser none .noBody (Or.inl rfl)

/-- Claim C6: whenever a transport response is received, the rate tracker
entry for the request's group is unconditionally overwritten with the rate
classified from that response's headers (also on error responses), and the
tracker is never written on a path with no server response (pre-flight
rejection or transport failure). -/
theorem C6_rate_tracker_update :
    (∀ (rates : Rates) (now : Int) (req : Request) (r : HTTPResp) (sink : BodySink),
        rateBlocked (rates.get (getRateGroup req.path)) now = false →
        (Do rates now req (some r) sink).rates
          = rates.set (getRateGroup req.path) (rateOfResp r)) ∧
    (∀ (rates : Rates) (now : Int) (req : Request) (tr : Option HTTPResp) (sink : BodySink),
        rateBlocked (rates.get (getRateGroup req.path)) now = true →
        (Do rates now req tr sink).rates = rates ∧
          (Do rates now req tr sink).httpCalled = false) ∧
    (∀ (rates : Rates) (now : Int) (req : Request) (sink : BodySink),
        (Do rates now req none sink).rates = rates) := by
  refine ⟨?_, ?_, ?_⟩
  · intro rates now req r sink hnb
    rw [Do_not_blocked rates now req (some r) sink hnb]
    rfl
  · intro rates now req tr sink hb
    obtain ⟨rate, -, heq⟩ := Do_blocked_of_rateBlocked rates now req tr sink hb
    rw [heq]
    exact ⟨rfl, rfl⟩
  · intro rates now req sink
    cases hb : rateBlocked (rates.get (getRateGroup req.path)) now with
    | false => rw [Do_not_blocked rates now req none sink hb]; rfl
    | true =>
      obtain ⟨rate, -, heq⟩ := Do_blocked_of_rateBlocked rates now req none sink hb
      rw [heq]

/-- Witness for C6 at concrete inputs. -/
theorem C6_witness :
    (rateBlocked (ratesNone.get (getRateGroup reqGetUser.path)) 50 = false ∧
      (Do ratesNone 50 reqGetUser (some (sampleResp 500 ['7'] [])) .noBody).rates
        = ratesNone.set (getRateGroup reqGetUser.path) (rateOfResp (sampleResp 500 ['7'] []))) ∧
    (rateBlocked (ratesCoreBlocked.get (getRateGroup reqGetUser.path)) 50 = true ∧
      (Do ratesCoreBlocked 50 reqGetUser (some (sampleResp 200 ['7'] [])) .noBody).rates
        = ratesCoreBlocked) ∧
    (Do ratesNone 50 reqGetUser none .noBody).rates = ratesNone := by
  refine ⟨⟨rfl, ?_⟩, ⟨by decide, ?_⟩, ?_⟩
  · exact C6_rate_tracker_update.1 ratesNone 50 reqGetUser (sampleResp 500 ['7'] []) .noBody rfl
  · exact (C6_rate_tracker_update.2.1 ratesCoreBlocked 50 reqGetUser
      (some (sampleResp 200 ['7'] [])) .noBody (by decide)).1
  · exact C6_rate_tracker_update.2.2 ratesNone 50 reqGetUser .noBody

/-- Claim C3 (amended): for all responses with a 200, 201 or 204 status,
provided the caller-requested body handling succeeds (no sink, raw copy
succeeds, or the JSON decode succeeds or hits a bare EOF), `Do` returns the
non-nil envelope and no error. -/
theorem C3_amended_success_envelope :
    ∀ (rates : Rates) (now : Int) (req : Request) (r : HTTPResp) (sink : BodySink),
      rateBlocked (rates.get (getRateGroup req.path)) now = false →
      (r.statusCode = 200 ∨ r.statusCode = 201 ∨ r.statusCode = 204) →
      sinkOk sink = true →
      (Do rates now req (some r) sink).outcome = .ok (newResponse r) := by
  intro rates now req r sink hnb hst hok
  rw [Do_not_blocked rates now req (some r) sink hnb]
  show classify req r (newResponse r) sink = .ok (newResponse r)
  have hs : isSuccess r.statusCode = true := by
    rcases hst with h | h | h <;> simp [isSuccess, h]
  rw [classify, if_pos hs]
  cases sink with
  | noBody => rfl
  | writer copyOk => simp only [sinkOk] at hok; simp [readBody, hok]
  | jsonSink decodeOk => simp only [sinkOk] at hok; simp [readBody, hok]

/-- Witness for C3 (amended) at a concrete input. -/
theorem C3_witness :
    rateBlocked (ratesNone.get (getRateGroup reqGetUser.path)) 0 = false ∧
    (sampleResp 200 ['7'] []).statusCode = 200 ∧ sinkOk .noBody = true ∧
    (Do ratesNone 0 reqGetUser (some (sampleResp 200 ['7'] [])) .noBody).outcome
      = .ok (newResponse (sampleResp 200 ['7'] [])) := by
  refine ⟨rfl, rfl, rfl, ?_⟩
  exact C3_amended_success_envelope ratesNone 0 reqGetUser (sampleResp 200 ['7'] []) .noBody
    rfl (Or.inl rfl) rfl

/-- Counterexample to C3 as stated: a 200 response whose body fails to
JSON-decode into the caller's value makes `Do` return an error, not the
envelope. -/
theorem C3_counterexample :
    (sampleResp 200 ['7'] []).statusCode = 200 ∧
    (Do ratesNone 0 reqGetUser (some (sampleResp 200 ['7'] [])) (.jsonSink false)).outcome
      = .error .bodyErr := ⟨rfl, rfl⟩

/-- Claim C2: a 403 response whose `X-RateLimit-Remaining` header is not
`"0"` and whose body documentation URL does not end with the
abuse-rate-limits marker produces no typed error object: the error-mapping
switch falls through without returning an error for the 403 (the call
returns the envelope, the drained body making the final read a no-op). -/
theorem C2_forbidden_fallthrough :
    ∀ (rates : Rates) (now : Int) (req : Request) (r : HTTPResp) (sink : BodySink),
      rateBlocked (rates.get (getRateGroup req.path)) now = false →
      r.statusCode = 403 → r.rateRemainingH ≠ ['0'] →
      endsWith r.bodyDocURL abuseMarker = false →
      (Do rates now req (some r) sink).outcome = .ok (newResponse r) := by
  intro rates now req r sink hnb hst hrem habuse
  rw [Do_not_blocked rates now req (some r) sink hnb]
  show classify req r (newResponse r) sink = .ok (newResponse r)
  have hrem' : (r.rateRemainingH == ['0']) = false := beq_eq_false_iff_ne.mpr hrem
  simp +decide [classify, isSuccess, hst, hrem', habuse]

/-- Witness for C2 at a concrete input. -/
theorem C2_witness :
    rateBlocked (ratesNone.get (getRateGroup reqGetUser.path)) 0 = false ∧
    (sampleResp 403 ['7'] []).statusCode = 403 ∧
    (sampleResp 403 ['7'] []).rateRemainingH ≠ ['0'] ∧
    endsWith (sampleResp 403 ['7'] []).bodyDocURL abuseMarker = false ∧
    (Do ratesNone 0 reqGetUser (some (sampleResp 403 ['7'] [])) .noBody).outcome
      = .ok (newResponse (sampleResp 403 ['7'] [])) := by
  refine ⟨rfl, rfl, by decide, rfl, ?_⟩
  exact C2_forbidden_fallthrough ratesNone 0 reqGetUser (sampleResp 403 ['7'] []) .noBody
    rfl rfl (by decide) rfl

/-- Claim C4: a 403 response whose `X-RateLimit-Remaining` header equals
`"0"` makes `Do` return a `RateLimitError` wrapping the generic
`ResponseError` and carrying the rate freshly classified from that
response's headers. -/
theorem C4_forbidden_rate_limited :
    ∀ (rates : Rates) (now : Int) (req : Request) (r : HTTPResp) (sink : BodySink),
      rateBlocked (rates.get (getRateGroup req.path)) now = false →
      r.statusCode = 403 → r.rateRemainingH = ['0'] →
      (Do rates now req (some r) sink).outcome
        = .error (.rateLimited
            ⟨some ⟨req.method, req.path, 403, r.bodyMessage, r.bodyDocURL⟩,
              req, rateOfResp r⟩) := by
  intro rates now req r sink hnb hst hrem
  rw [Do_not_blocked rates now req (some r) sink hnb]
  show classify req r (newResponse r) sink = _
  simp +decide [classify, isSuccess, hst, hrem, newResponse]

/-- Witness for C4 at a concrete input. -/
theorem C4_witness :
    rateBlocked (ratesNone.get (getRateGroup reqGetUser.path)) 0 = false ∧
    (sampleResp 403 ['0'] []).statusCode = 403 ∧
    (sampleResp 403 ['0'] []).rateRemainingH = ['0'] ∧
    (Do ratesNone 0 reqGetUser (some (sampleResp 403 ['0'] [])) .noBody).outcome
      = .error (.rateLimited
          ⟨some ⟨reqGetUser.method, reqGetUser.path, 403,
              (sampleResp 403 ['0'] []).bodyMessage, (sampleResp 403 ['0'] []).bodyDocURL⟩,
            reqGetUser, rateOfResp (sampleResp 403 ['0'] [])⟩) := by
  refine ⟨rfl, rfl, rfl, ?_⟩
  exact C4_forbidden_rate_limited ratesNone 0 reqGetUser (sampleResp 403 ['0'] []) .noBody
    rfl rfl rfl

/-- Claim C5: a 401 response makes `Do` return an `AuthError` wrapping a
`ResponseError`, and that error's message is
`"<METHOD> <PATH>: 401 <server message>"` built from the request's method
and URL path, the status code, and the server message parsed from the
body. -/
theorem C5_unauthorized :
    ∀ (rates : Rates) (now : Int) (req : Request) (r : HTTPResp) (sink : BodySink),
      rateBlocked (rates.get (getRateGroup req.path)) now = false →
      r.statusCode = 401 →
      (Do rates now req (some r) sink).outcome
        = .error (.authErr ⟨some ⟨req.method, req.path, 401, r.bodyMessage, r.bodyDocURL⟩⟩) ∧
      (AuthError.mk (some ⟨req.method, req.path, 401, r.bodyMessage, r.bodyDocURL⟩)).msg
        = req.method ++ ' ' :: req.path ++ ':' :: ' ' :: '4' :: '0' :: '1' :: ' '
            :: r.bodyMessage := by
  intro rates now req r sink hnb hst
  constructor
  · rw [Do_not_blocked rates now req (some r) sink hnb]
    show classify req r (newResponse r) sink = _
    simp +decide [classify, isSuccess, hst]
  · have hdig : Nat.toDigits 10 401 = ['4', '0', '1'] := by decide
    simp [AuthError.msg, ResponseError.msg, hdig]

/-- Witness for C5 at a concrete input. -/
theorem C5_witness :
    rateBlocked (ratesNone.get (getRateGroup reqGetUser.path)) 0 = false ∧
    (sampleResp 401 ['7'] []).statusCode = 401 ∧
    (Do ratesNone 0 reqGetUser (some (sampleResp 401 ['7'] [])) .noBody).outcome
      = .error (.authErr ⟨some ⟨reqGetUser.method, reqGetUser.path, 401,
          (sampleResp 401 ['7'] []).bodyMessage, (sampleResp 401 ['7'] []).bodyDocURL⟩⟩) ∧
    (AuthError.mk (some ⟨reqGetUser.method, reqGetUser.path, 401,
        (sampleResp 401 ['7'] []).bodyMessage, (sampleResp 401 ['7'] []).bodyDocURL⟩)).msg
      = "GET /user: 401 oops".data := by
  have h := C5_unauthorized ratesNone 0 reqGetUser (sampleResp 401 ['7'] []) .noBody rfl rfl
  exact ⟨rfl, rfl, h.1, by rw [h.2]; decide⟩

/-- Claim C7 (amended): Link-header parsing is order-independent — a header
listing `first`/`prev`/`next`/`last` entries (with URLs over the regexes'
URL character class, at most one entry per relation) yields identical
`Pages` fields under any permutation — and each field equals the number the
rel-specific pattern captures from the matching entry's URL (the digits
after the last qualifying `page=` occurrence), left at zero when the
relation is absent or its URL has no such occurrence. -/
theorem C7_amended_link_order_independence :
    ∀ es₁ es₂ : List LinkEntry, es₁.Perm es₂ →
      (∀ e ∈ es₁, (∀ c ∈ e.url, urlChar c = true) ∧ e.rel ∈ relNames) →
      (es₁.map LinkEntry.rel).Nodup →
      pagesOfLink (renderLink es₁) = pagesOfLink (renderLink es₂) ∧
      pagesOfLink (renderLink es₁) = expectedPages es₁ := by
  intro es₁ es₂ hp hwf hnd
  have hwf₂ : ∀ e ∈ es₂, (∀ c ∈ e.url, urlChar c = true) ∧ e.rel ∈ relNames :=
    fun e he => hwf e (hp.mem_iff.mpr he)
  have hnd₂ : (es₂.map LinkEntry.rel).Nodup := ((hp.map LinkEntry.rel).nodup_iff).mp hnd
  refine ⟨?_, pages_render es₁ hwf hnd⟩
  rw [pages_render es₁ hwf hnd, pages_render es₂ hwf₂ hnd₂]
  rw [expectedPages, expectedPages,
    relPage_perm relFirstStr es₁ es₂ hp hnd, relPage_perm relPrevStr es₁ es₂ hp hnd,
    relPage_perm relNextStr es₁ es₂ hp hnd, relPage_perm relLastStr es₁ es₂ hp hnd]

def entF : LinkEntry := ⟨"https://api.github.com/users?page=1".data, relFirstStr⟩
def entP : LinkEntry := ⟨"https://api.github.com/users?page=2".data, relPrevStr⟩
def entN : LinkEntry := ⟨"https://api.github.com/users?page=4".data, relNextStr⟩
def entL : LinkEntry := ⟨"https://api.github.com/users?page=9".data, relLastStr⟩

/-- Witness for C7 (amended): a concrete four-relation header parsed in two
different orders. -/
theorem C7_witness :
    [entF, entP, entN, entL].Perm [entL, entN, entP, entF] ∧
    (entF.rel ∈ relNames ∧ entP.rel ∈ relNames ∧ entN.rel ∈ relNames ∧ entL.rel ∈ relNames) ∧
    pagesOfLink (renderLink [entF, entP, entN, entL])
      = pagesOfLink (renderLink [entL, entN, entP, entF]) ∧
    pagesOfLink (renderLink [entF, entP, entN, entL])
      = expectedPages [entF, entP, entN, entL] := by
  have h := C7_amended_link_order_independence [entF, entP, entN, entL] [entL, entN, entP, entF]
    (by decide) (by decide) (by decide)
  exact ⟨by decide, ⟨by decide, by decide, by decide, by decide⟩, h.1, h.2⟩

def urlTricky : List Char := "https://api.github.com/repos?page=3&per_page=50".data

/-- Counterexample to C7 as stated: for a `rel="next"` entry whose URL
query is `page=3&per_page=50`, the parsed `next` field is `50` — the digits
captured inside `per_page=50` by the greedy pattern — while the `page`
query parameter of the URL is `3`. -/
theorem C7_counterexample :
    (pagesOfLink (renderLink [⟨urlTricky, relNextStr⟩])).next = 50 ∧
    pageQueryParam urlTricky = some 3 := by decide

/-- Claim C8 (amended): for every existing readable *non-empty* file,
`NewUploadRequest` sniffs the content type from a 512-byte buffer holding
the file's first bytes (zero-padded when the file is shorter) via the
stdlib detector, resets the read position to the start of the file, and
returns a POST request streaming the file from offset 0 as its body,
together with the file handle as the closer. -/
theorem C8_amended_upload :
    ∀ (detect : List Nat → List Char) (token path : List Char) (bs : List Nat),
      bs ≠ [] →
      NewUploadRequest detect token false true path (some bs)
        = .ok (⟨['P', 'O', 'S', 'T'], path, (bs.length : Int), userAgent, mediaTypeV3,
            detect (pad512 bs),
            (if token = [] then none else some ("token ".data ++ token)), ⟨bs, 0⟩⟩,
          ⟨bs, 0⟩) := by
  intro detect token path bs hbs
  have hlen : bs.length ≠ 0 := by simpa using hbs
  simp [NewUploadRequest, hlen]

def detectOctet : List Nat → List Char := fun _ => "application/octet-stream".data

/-- Witness for C8 (amended) at a concrete two-byte file. -/
theorem C8_witness :
    ([7, 8] : List Nat) ≠ [] ∧
    NewUploadRequest detectOctet [] false true ['/', 'f'] (some [7, 8])
      = .ok (⟨['P', 'O', 'S', 'T'], ['/', 'f'], (2 : Int), userAgent, mediaTypeV3,
          detectOctet (pad512 [7, 8]), none, ⟨[7, 8], 0⟩⟩, ⟨[7, 8], 0⟩) := by
  have h := C8_amended_upload detectOctet [] ['/', 'f'] [7, 8] (by decide)
  exact ⟨by decide, by rw [h]; rfl⟩

/-- Counterexample to C8 as stated: an existing, readable, *empty* file
makes `NewUploadRequest` fail (the 512-byte sniff `Read` returns
`(0, io.EOF)`), so no request or closer is returned. -/
theorem C8_counterexample :
    NewUploadRequest detectOctet [] false true ['/', 'f'] (some []) = .error .readErr := rfl

/-- Claim C9: for every request shape (plain JSON, paginated, upload,
download), construction with a nil context fails with a context error at
construction time, before any network I/O (the builders perform none). -/
theorem C9_nil_context :
    (∀ (token method path : List Char) (body : Option ReqBody),
        body ≠ some ReqBody.jsonBad →
        NewRequest token true true method path body = .error .nilCtx) ∧
    (∀ (token method path : List Char) (pageSize pageNo : Int) (body : Option ReqBody),
        body ≠ some ReqBody.jsonBad →
        NewPageRequest token true true method path pageSize pageNo body = .error .nilCtx) ∧
    (∀ token path : List Char, NewDownloadRequest token true true path = .error .nilCtx) ∧
    (∀ (detect : List Nat → List Char) (token path : List Char) (bs : List Nat),
        bs ≠ [] →
        NewUploadRequest detect token true true path (some bs) = .error .nilCtx) := by
  have h1 : ∀ (token method path : List Char) (body : Option ReqBody),
      body ≠ some ReqBody.jsonBad →
      NewRequest token true true method path body = .error .nilCtx := by
    intro token method path body hbody
    cases body with
    | none => rfl
    | some b =>
      cases b with
      | raw bs => rfl
      | jsonOk enc => rfl
      | jsonBad => exact absurd rfl hbody
  refine ⟨h1, ?_, ?_, ?_⟩
  · intro token method path pageSize pageNo body hbody
    rw [NewPageRequest, h1 token method path body hbody]
  · intro token path
    rfl
  · intro detect token path bs hbs
    have hlen : bs.length ≠ 0 := by simpa using hbs
    simp [NewUploadRequest, hlen]

/-- Witness for C9 at concrete inputs. -/
theorem C9_witness :
    ((some (ReqBody.raw [1]) : Option ReqBody) ≠ some ReqBody.jsonBad ∧
      NewRequest [] true true ['G', 'E', 'T'] ['/', 'u'] (some (ReqBody.raw [1]))
        = .error .nilCtx) ∧
    NewPageRequest [] true true ['G', 'E', 'T'] ['/', 'u'] 50 1 none = .error .nilCtx ∧
    NewDownloadRequest [] true true ['/', 'd'] = .error .nilCtx ∧
    (([7] : List Nat) ≠ [] ∧
      NewUploadRequest detectOctet [] true true ['/', 'f'] (some [7]) = .error .nilCtx) := by
  refine ⟨⟨by decide, ?_⟩, ?_, ?_, by decide, ?_⟩
  · exact C9_nil_context.1 [] ['G', 'E', 'T'] ['/', 'u'] (some (ReqBody.raw [1])) (by decide)
  · exact C9_nil_context.2.1 [] ['G', 'E', 'T'] ['/', 'u'] 50 1 none (by decide)
  · exact C9_nil_context.2.2.1 [] ['/', 'd']
  · exact C9_nil_context.2.2.2 detectOctet [] ['/', 'f'] [7] (by decide)

/-- Claim C10: `AuthError`, `NotFoundError` and `RateLimitAbuseError` with a
nil wrapped `ResponseError` report the fixed fallback messages
`"requires authentication"`, `"resource not found"` and
`"rate limit is abused"` respectively and unwrap to nil; with a non-nil
wrapped error, their message equals the wrapped `ResponseError`'s formatted
message. -/
theorem C10_error_fallbacks :
    ((AuthError.mk none).msg = "requires authentication".data ∧
      (AuthError.mk none).unwrap = none ∧
      ∀ re : ResponseError, (AuthError.mk (some re)).msg = re.msg) ∧
    ((NotFoundError.mk none).msg = "resource not found".data ∧
      (NotFoundError.mk none).unwrap = none ∧
      ∀ re : ResponseError, (NotFoundError.mk (some re)).msg = re.msg) ∧
    (∀ (rate : Rate) (retryAfter : Int),
      (RateLimitAbuseError.mk none rate retryAfter).msg = "rate limit is abused".data ∧
      (RateLimitAbuseError.mk none rate retryAfter).unwrap = none) ∧
    (∀ (re : ResponseError) (rate : Rate) (retryAfter : Int),
      (RateLimitAbuseError.mk (some re) rate retryAfter).msg = re.msg) :=
  ⟨⟨rfl, rfl, fun _ => rfl⟩, ⟨rfl, rfl, fun _ => rfl⟩,
    fun _ _ => ⟨rfl, rfl⟩, fun _ _ _ => rfl⟩

end GH
